import Mathlib

set_option maxRecDepth 10000

/-! Verification of the game leaderboard backend.

    The embedded code comes from `backend/main.py` (the FastAPI handlers
    `signup`, `submit_score`, `get_top_leaderboard`, `get_player_profile`)
    and `backend/redis_client.py` (`_encode_score_with_tiebreaker`,
    `update_leaderboard`, `get_top_n_from_redis`, `get_rank_from_redis`).

    Modelling conventions:
    * player ids (UUIDs / UUID strings) are `String`s;
    * timestamps are integers counting milliseconds since the epoch
      (the source keeps `datetime` values in Postgres and converts them
      with `.timestamp() * 1000` before encoding; we keep a single
      millisecond integer throughout);
    * scores are `ℕ` (`SubmitScoreRequest.score` is validated `ge=0`);
    * the relational tables and the Redis ZSET are association lists;
    * Python float64 arithmetic in the encoder is modelled exactly:
      every value the encoder manipulates is a mathematical integer, and
      each float64 operation rounds its exact integer result to 53
      significant bits, round-to-nearest, ties-to-even (`fl` below);
    * the `player:meta:*` hash written by `update_leaderboard` is never
      read by any endpoint and is omitted. -/

/-- Row of the `playerleaderboard` table: the per-player
    `BestScoreRecord` (best_score, last_updated). -/
structure LeaderboardRow where
  best_score : ℕ
  last_updated : ℤ
deriving DecidableEq

/-- Row of the append-only `score_history` table (a `ScoreEvent`). -/
structure HistoryRow where
  player_id : String
  score : ℕ
  created_at : ℤ
deriving DecidableEq

/-- The backend state: `playerinfo` ids (the Players), the
    `playerleaderboard` table, the `score_history` table, and the Redis
    ZSET `global:leaderboard` (the Rank Index). -/
structure Database where
  players : List String
  leaderboard : List (String × LeaderboardRow)
  history : List HistoryRow
  zset : List (String × ℤ)
deriving DecidableEq

def Database.empty : Database := ⟨[], [], [], []⟩

/-- Lookup in an association list (first match wins): a primary-key
    lookup / `dict.get` / ZSCORE. -/
def alookup {α : Type} (k : String) : List (String × α) → Option α
  | [] => none
  | (k₀, v) :: rest => if k₀ = k then some v else alookup k rest

/-- Insert-or-update by key: a keyed SQL insert/update or a Redis ZADD
    of a single member. -/
def upsert {α : Type} (k : String) (v : α) : List (String × α) → List (String × α)
  | [] => [(k, v)]
  | (k₀, v₀) :: rest => if k₀ = k then (k, v) :: rest else (k₀, v₀) :: upsert k v rest

/-- Bit length of a natural number, computed with explicit fuel (1100 is
    ample for every finite IEEE-754 double value). -/
def bitLenAux : ℕ → ℕ → ℕ
  | 0, _ => 0
  | fuel + 1, n => if n = 0 then 0 else bitLenAux fuel (n / 2) + 1

def bitLen (n : ℕ) : ℕ := bitLenAux 1100 n

/-- Round a natural number to 53 significant bits, round-to-nearest,
    ties-to-even: the value a float64 holds after an exact integer
    result is stored into it. -/
def round53 (m : ℕ) : ℕ :=
  if m < 2 ^ 53 then m
  else
    let p := 2 ^ (bitLen m - 53)
    let q := m / p
    let r := m % p
    if r < p / 2 then q * p
    else if p / 2 < r then (q + 1) * p
    else if q % 2 = 0 then q * p else (q + 1) * p

/-- Float64 rounding of an exact integer (sign-symmetric). -/
def fl (n : ℤ) : ℤ :=
  if n < 0 then -(round53 n.natAbs : ℤ) else (round53 n.natAbs : ℤ)

/-- The constant `1_000_000_000.0` of `_encode_score_with_tiebreaker`
    (the `K` of the encoder design). -/
def encoderK : ℤ := 1000000000

/-- `_encode_score_with_tiebreaker` from `backend/redis_client.py`:
    `float(best_score) * 1_000_000_000.0 - float(achieved_ts_ms)`, with
    each float64 operation rounding its exact result via `fl`. -/
def encode_score_with_tiebreaker (best_score : ℕ) (achieved_ts_ms : ℤ) : ℤ :=
  fl (fl (fl (best_score : ℤ) * encoderK) - fl achieved_ts_ms)

/-- The spec's ranking rule on (score, achieved-at-ms) pairs: higher
    score wins; for equal scores the earlier timestamp wins. `a` ranks
    strictly above `b`. -/
def ranksAbove (a b : ℕ × ℤ) : Prop :=
  b.1 < a.1 ∨ (a.1 = b.1 ∧ a.2 < b.2)

/-- `update_leaderboard`: ZADD of the encoded score for one player. -/
def update_leaderboard (zset : List (String × ℤ)) (pid : String)
    (best_score : ℕ) (achieved_ts_ms : ℤ) : List (String × ℤ) :=
  upsert pid (encode_score_with_tiebreaker best_score achieved_ts_ms) zset

/-- Redis sorted-set order reversed (the ZREVRANGE / ZREVRANK order):
    score descending, ties by member string descending. -/
def zBefore (a b : String × ℤ) : Bool :=
  decide (b.2 < a.2) || (decide (a.2 = b.2) && decide (b.1 < a.1))

def insertDesc (x : String × ℤ) : List (String × ℤ) → List (String × ℤ)
  | [] => [x]
  | y :: rest => if zBefore x y then x :: y :: rest else y :: insertDesc x rest

/-- The ZSET enumerated in ZREVRANGE order. -/
def sortDesc (l : List (String × ℤ)) : List (String × ℤ) :=
  l.foldr insertDesc []

/-- `get_top_n_from_redis`: `ZREVRANGE key 0 (n-1) WITHSCORES`. -/
def get_top_n_from_redis (n : ℕ) (zset : List (String × ℤ)) : List (String × ℤ) :=
  (sortDesc zset).take n

/-- ZREVRANK: `none` when the member is absent, otherwise the number of
    members strictly above it in the reversed sorted-set order. -/
def zrevrank (zset : List (String × ℤ)) (pid : String) : Option ℕ :=
  (alookup pid zset).map (fun v =>
    (zset.filter (fun q =>
      decide (v < q.2) || (decide (q.2 = v) && decide (pid < q.1)))).length)

/-- `get_rank_from_redis`: ZREVRANK converted to a 1-based rank;
    `None` propagates when the player has no index entry. -/
def get_rank_from_redis (zset : List (String × ℤ)) (pid : String) : Option ℕ :=
  (zrevrank zset pid).map (fun r => r + 1)

inductive ApiError
  | notFound
  | userExists
deriving DecidableEq

/-- `POST /signup`: uniqueness check, then a new `playerinfo` row plus
    the eagerly initialized `playerleaderboard` row
    `best_score = 0, last_updated = now` ("Initialize leaderboard row
    with score 0" in the source). Redis is untouched. -/
def signup (db : Database) (pid : String) (now : ℤ) : Except ApiError Database :=
  if pid ∈ db.players then .error .userExists
  else .ok { db with
    players := pid :: db.players,
    leaderboard := upsert pid ⟨0, now⟩ db.leaderboard }

/-- The leaderboard row `submit_score` ends up with: created as
    `⟨score, now⟩` when absent, replaced when `score` is strictly
    greater than the stored best, otherwise untouched. -/
def submitRow (db : Database) (pid : String) (score : ℕ) (now : ℤ) : LeaderboardRow :=
  match alookup pid db.leaderboard with
  | none => ⟨score, now⟩
  | some r => if r.best_score < score then ⟨score, now⟩ else r

/-- `POST /submit-score`: 404 for an unknown player (before any write);
    otherwise append one `score_history` row stamped `now`, update the
    leaderboard row per `submitRow`, and mirror the resulting row into
    the Redis ZSET. -/
def submit_score (db : Database) (pid : String) (score : ℕ) (now : ℤ) :
    Except ApiError Database :=
  if pid ∈ db.players then
    let row := submitRow db pid score now
    .ok { db with
      history := db.history ++ [⟨pid, score, now⟩],
      leaderboard := upsert pid row db.leaderboard,
      zset := update_leaderboard db.zset pid row.best_score row.last_updated }
  else .error .notFound

/-- The mutating endpoints. -/
inductive Op
  | signupOp (pid : String) (now : ℤ)
  | submitOp (pid : String) (score : ℕ) (now : ℤ)
deriving DecidableEq

def opNow : Op → ℤ
  | .signupOp _ now => now
  | .submitOp _ _ now => now

/-- Run one mutating endpoint; an HTTP error leaves the state unchanged
    (the handler raises before committing anything). -/
def applyOp (db : Database) : Op → Database
  | .signupOp pid now =>
    match signup db pid now with
    | .ok db' => db'
    | .error _ => db
  | .submitOp pid score now =>
    match submit_score db pid score now with
    | .ok db' => db'
    | .error _ => db

/-- States reachable from the empty deployment through the endpoints. -/
inductive Reachable : Database → Prop
  | empty : Reachable Database.empty
  | step (db : Database) (op : Op) : Reachable db → Reachable (applyOp db op)

/-- One entry of the `GET /leaderboard/top` response (display name
    omitted: player identity is the id itself in this model). -/
structure LBEntry where
  rank : ℕ
  player_id : String
  score : ℕ
  last_updated : ℤ
deriving DecidableEq

/-- The `info_map` join of `get_top_leaderboard`: a player id resolves
    iff it has both a `playerinfo` row and a `playerleaderboard` row. -/
def infoFor (db : Database) (pid : String) : Option LeaderboardRow :=
  if pid ∈ db.players then alookup pid db.leaderboard else none

/-- The `for idx, (pid, _) in enumerate(redis_entries)` loop of
    `get_top_leaderboard`: an id that does not resolve in the join is
    skipped (`continue`), and each kept entry gets `rank = idx + 1`
    where `idx` is its position in the Redis slice. -/
def get_top_items (db : Database) : ℕ → List (String × ℤ) → List LBEntry
  | _, [] => []
  | idx, (pid, _) :: rest =>
    match infoFor db pid with
    | none => get_top_items db (idx + 1) rest
    | some r => ⟨idx + 1, pid, r.best_score, r.last_updated⟩ :: get_top_items db (idx + 1) rest

/-- `GET /leaderboard/top`. -/
def get_top_leaderboard (n : ℕ) (db : Database) : List LBEntry :=
  get_top_items db 0 (get_top_n_from_redis n db.zset)

/-- A list paired with positions starting at `i` (Python `enumerate`). -/
def indexedFrom {α : Type} : ℕ → List α → List (ℕ × α)
  | _, [] => []
  | i, a :: l => (i, a) :: indexedFrom (i + 1) l

/-- Maximum of the scores in a submission sequence (0 for the empty
    sequence; scores are non-negative). -/
def maxScore (subs : List (ℕ × ℤ)) : ℕ :=
  subs.foldr (fun p m => max p.1 m) 0

/-- Timestamp of the first submission whose score equals `m`. -/
def firstAchievedAt (subs : List (ℕ × ℤ)) (m : ℕ) : Option ℤ :=
  (subs.find? (fun p => p.1 == m)).map (fun p => p.2)

/-- One submission's effect on a present leaderboard row (the
    strict-greater comparison of `submit_score`). -/
def stepBest (r : LeaderboardRow) (p : ℕ × ℤ) : LeaderboardRow :=
  if r.best_score < p.1 then ⟨p.1, p.2⟩ else r

def processSubs (r : LeaderboardRow) (subs : List (ℕ × ℤ)) : LeaderboardRow :=
  subs.foldl stepBest r

/-- A sequence of `submit_score` calls for one player. -/
def submitMany (db : Database) (pid : String) (subs : List (ℕ × ℤ)) : Database :=
  subs.foldl (fun d p => applyOp d (.submitOp pid p.1 p.2)) db

/-- Concrete drifted state: "g" is in the Rank Index with the top
    encoded value but has no Ledger rows; "b" is fully present. -/
def dbDrift : Database :=
  ⟨["b"], [("b", ⟨5, 0⟩)], [], [("g", 10), ("b", 5)]⟩

/-- Concrete ZSET used to witness the rank queries. -/
def demoZset : List (String × ℤ) := [("a", 10), ("b", 5)]

/-- Concrete pre-state for the single-timestamp witness. -/
def dbStart : Database := ⟨["q"], [("q", ⟨2, 0⟩)], [], []⟩

/-- The state `submit_score dbStart "q" 5 3` commits. -/
def dbRes : Database :=
  ⟨["q"], [("q", ⟨5, 3⟩)], [⟨"q", 5, 3⟩], [("q", encode_score_with_tiebreaker 5 3)]⟩

theorem alookup_upsert_self {α : Type} (k : String) (v : α) (l : List (String × α)) :
    alookup k (upsert k v l) = some v := by
  induction l with
  | nil => simp [upsert, alookup]
  | cons hd tl ih =>
    obtain ⟨k₀, v₀⟩ := hd
    by_cases hk : k₀ = k
    · simp [upsert, hk, alookup]
    · simp [upsert, hk, alookup, ih]

theorem alookup_upsert_ne {α : Type} {k k' : String} (v : α) (l : List (String × α))
    (h : k' ≠ k) : alookup k' (upsert k v l) = alookup k' l := by
  have h2 : k ≠ k' := Ne.symm h
  induction l with
  | nil => simp [upsert, alookup, h2]
  | cons hd tl ih =>
    obtain ⟨k₀, v₀⟩ := hd
    by_cases hk : k₀ = k
    · subst hk; simp [upsert, alookup, h2]
    · simp [upsert, hk, alookup, ih]

theorem fl_eq_self (n : ℤ) (h : n.natAbs < 2 ^ 53) : fl n = n := by
  unfold fl round53
  simp only [h, if_true]
  split <;> omega

theorem encoderK_pos : (0 : ℤ) < encoderK := by norm_num [encoderK]

/-- Whenever every intermediate value fits in float64's exact-integer
    range, the encoder computes the exact value of its formula. -/
theorem encode_eq_exact (s : ℕ) (t : ℤ) (hs : (s : ℤ) * encoderK < 2 ^ 53)
    (ht0 : 0 ≤ t) (ht : t < 2 ^ 53) :
    encode_score_with_tiebreaker s t = (s : ℤ) * encoderK - t := by
  have hs0 : (0 : ℤ) ≤ (s : ℤ) * encoderK :=
    mul_nonneg (Int.natCast_nonneg s) (le_of_lt encoderK_pos)
  have hsle : (s : ℤ) ≤ (s : ℤ) * encoderK :=
    le_mul_of_one_le_right (Int.natCast_nonneg s) (by norm_num [encoderK])
  have h1 : ((s : ℤ)).natAbs < 2 ^ 53 := by omega
  have h2 : ((s : ℤ) * encoderK).natAbs < 2 ^ 53 := by omega
  have h3 : t.natAbs < 2 ^ 53 := by omega
  have h4 : ((s : ℤ) * encoderK - t).natAbs < 2 ^ 53 := by omega
  unfold encode_score_with_tiebreaker
  rw [fl_eq_self _ h1, fl_eq_self _ h2, fl_eq_self _ h3, fl_eq_self _ h4]

/-- C2: the claim "encode(a) > encode(b) iff a ranks strictly above b
    (higher score wins; equal scores, earlier timestamp wins)" is false
    on the code: the pair a = (score 1, ts 2·10⁹ ms — 24 Jan 1970)
    ranks strictly above b = (score 0, ts 0), yet the encoder orders a
    strictly below b, because K = 10⁹ is smaller than the timestamp
    term. This contradicts the encoder's own docstring ("Higher score
    must rank higher"), so the code, not the claim, is at fault. -/
theorem encode_order_contract_violation :
    ranksAbove (1, 2 * 10 ^ 9) (0, 0) ∧
    encode_score_with_tiebreaker 1 (2 * 10 ^ 9) < encode_score_with_tiebreaker 0 0 := by
  constructor
  · left; decide
  · decide

/-- C3: the numeric-safety claim is false on the code, in both parts:
    K = 10⁹ does not exceed the timestamp-in-milliseconds term (already
    10¹² by September 2001, and ~1.76·10¹² today), and the documented
    maximum score 2³¹ times K exceeds float64's exact-integer bound
    2⁵³ — concretely, the encoder collapses the boundary inputs
    (2³¹, 0 ms) and (2³¹, 100 ms) to the same float. -/
theorem encoderK_bounds_violation :
    encoderK = 10 ^ 9 ∧
    encoderK < 10 ^ 12 ∧
    2 ^ 53 < 2 ^ 31 * encoderK ∧
    encode_score_with_tiebreaker (2 ^ 31) 0 = encode_score_with_tiebreaker (2 ^ 31) 100 := by
  refine ⟨by norm_num [encoderK], by norm_num [encoderK], by norm_num [encoderK], by decide⟩

/-- C8 counterexample: strict monotonicity in the timestamp fails at
    the documented maximum score 2³¹: with t1 = 0 < t2 = 100 the float
    encoder returns equal values (the 100 ms difference is below the
    ulp of 2³¹·10⁹, which is 256), so encode(s, t1) > encode(s, t2)
    does not hold there. -/
theorem encode_timestamp_strictness_counterexample :
    (0 : ℤ) < 100 ∧
    ¬ encode_score_with_tiebreaker (2 ^ 31) 100 < encode_score_with_tiebreaker (2 ^ 31) 0 := by
  constructor
  · decide
  · decide

/-- With enough fuel, `bitLenAux` is bounded by any exponent that
    bounds its input. -/
theorem bitLenAux_le : ∀ (fuel n c : ℕ), n < 2 ^ c → c ≤ fuel → bitLenAux fuel n ≤ c := by
  intro fuel
  induction fuel with
  | zero => intro n c _ _; exact Nat.zero_le c
  | succ fuel ih =>
    intro n c hn hc
    by_cases h0 : n = 0
    · simp [bitLenAux, h0]
    · cases c with
      | zero => omega
      | succ c' =>
        have hpow : (2 : ℕ) ^ (c' + 1) = 2 * 2 ^ c' := by rw [pow_succ]; ring
        have hn' : n / 2 < 2 ^ c' := by omega
        have hrec := ih (n / 2) c' hn' (by omega)
        have hstep : bitLenAux (fuel + 1) n = bitLenAux fuel (n / 2) + 1 := by
          simp [bitLenAux, h0]
        omega

/-- Round-to-nearest at 53 bits moves a value below `2 ^ (54 + k)` by
    at most `2 ^ k` (half an ulp). -/
theorem round53_error (m k : ℕ) (hk : k ≤ 1000) (hm : m < 2 ^ (54 + k)) :
    m ≤ round53 m + 2 ^ k ∧ round53 m ≤ m + 2 ^ k := by
  have hkpos : 0 < (2 : ℕ) ^ k := pow_pos (by norm_num) k
  unfold round53
  by_cases h : m < 2 ^ 53
  · simp only [h, if_true]
    omega
  · simp only [h, if_false]
    have hbl : bitLen m ≤ 54 + k := bitLenAux_le 1100 m (54 + k) hm (by omega)
    have hple : (2 : ℕ) ^ (bitLen m - 53) ≤ 2 ^ (k + 1) :=
      Nat.pow_le_pow_right (by norm_num) (by omega)
    have hppos : 0 < (2 : ℕ) ^ (bitLen m - 53) := pow_pos (by norm_num) _
    have hdm : m / 2 ^ (bitLen m - 53) * 2 ^ (bitLen m - 53) + m % 2 ^ (bitLen m - 53) = m := by
      rw [mul_comm]
      exact Nat.div_add_mod m (2 ^ (bitLen m - 53))
    have hmod : m % 2 ^ (bitLen m - 53) < 2 ^ (bitLen m - 53) := Nat.mod_lt m hppos
    have h2k : (2 : ℕ) ^ (k + 1) = 2 * 2 ^ k := by rw [pow_succ]; ring
    have hexp : (m / 2 ^ (bitLen m - 53) + 1) * 2 ^ (bitLen m - 53) =
        m / 2 ^ (bitLen m - 53) * 2 ^ (bitLen m - 53) + 2 ^ (bitLen m - 53) := by ring
    rw [hexp]
    split_ifs <;> omega

/-- Float64 rounding of an integer below `2 ^ (54 + k)` in magnitude
    moves it by at most `2 ^ k`. -/
theorem fl_error (n : ℤ) (k : ℕ) (hk : k ≤ 1000) (hn : n.natAbs < 2 ^ (54 + k)) :
    n - 2 ^ k ≤ fl n ∧ fl n ≤ n + 2 ^ k := by
  obtain ⟨h1, h2⟩ := round53_error n.natAbs k hk hn
  have hc : ((2 : ℕ) ^ k : ℤ) = (2 : ℤ) ^ k := by push_cast; ring
  unfold fl
  split <;> omega

/-- On the full documented score range (scores up to 2³¹) and any
    timestamp in [0, 2⁵³) ms, a strictly higher score encodes strictly
    higher: the score gap of at least K = 10⁹ dwarfs the float64
    rounding errors (at most 2⁷ on the product, since
    2³¹·K < 2⁶¹, and at most 2⁸ on the subtraction). -/
theorem encode_score_strict_mono (s1 s2 : ℕ) (t : ℤ) (hs1 : s1 ≤ 2 ^ 31)
    (hlt : s2 < s1) (ht0 : 0 ≤ t) (htl : t < 2 ^ 53) :
    encode_score_with_tiebreaker s2 t < encode_score_with_tiebreaker s1 t := by
  have hs2 : s2 ≤ 2 ^ 31 := by omega
  have hKval : encoderK = 1000000000 := rfl
  have hft : fl t = t := fl_eq_self t (by omega)
  have hcast1 : ((s1 : ℤ)) ≤ 2 ^ 31 := by exact_mod_cast hs1
  have hcast2 : ((s2 : ℤ)) ≤ 2 ^ 31 := by exact_mod_cast hs2
  have hfs1 : fl (s1 : ℤ) = (s1 : ℤ) :=
    fl_eq_self _ (by simp only [Int.natAbs_ofNat]; omega)
  have hfs2 : fl (s2 : ℤ) = (s2 : ℤ) :=
    fl_eq_self _ (by simp only [Int.natAbs_ofNat]; omega)
  have hx1n : (0 : ℤ) ≤ (s1 : ℤ) * encoderK :=
    mul_nonneg (Int.natCast_nonneg s1) (le_of_lt encoderK_pos)
  have hx2n : (0 : ℤ) ≤ (s2 : ℤ) * encoderK :=
    mul_nonneg (Int.natCast_nonneg s2) (le_of_lt encoderK_pos)
  have hx1u : (s1 : ℤ) * encoderK ≤ 2 ^ 31 * encoderK :=
    mul_le_mul_of_nonneg_right hcast1 (le_of_lt encoderK_pos)
  have hx2u : (s2 : ℤ) * encoderK ≤ 2 ^ 31 * encoderK :=
    mul_le_mul_of_nonneg_right hcast2 (le_of_lt encoderK_pos)
  have hKbound : (2 : ℤ) ^ 31 * encoderK < 2 ^ 61 := by norm_num [encoderK]
  have hb1 : ((s1 : ℤ) * encoderK).natAbs < 2 ^ (54 + 7) := by omega
  have hb2 : ((s2 : ℤ) * encoderK).natAbs < 2 ^ (54 + 7) := by omega
  obtain ⟨ha1l, ha1u⟩ := fl_error ((s1 : ℤ) * encoderK) 7 (by omega) hb1
  obtain ⟨ha2l, ha2u⟩ := fl_error ((s2 : ℤ) * encoderK) 7 (by omega) hb2
  have hd1 : (fl ((s1 : ℤ) * encoderK) - t).natAbs < 2 ^ (54 + 8) := by omega
  have hd2 : (fl ((s2 : ℤ) * encoderK) - t).natAbs < 2 ^ (54 + 8) := by omega
  obtain ⟨he1l, he1u⟩ := fl_error (fl ((s1 : ℤ) * encoderK) - t) 8 (by omega) hd1
  obtain ⟨he2l, he2u⟩ := fl_error (fl ((s2 : ℤ) * encoderK) - t) 8 (by omega) hd2
  have hgap : (s2 : ℤ) * encoderK + encoderK ≤ (s1 : ℤ) * encoderK := by
    have hc : (s2 : ℤ) + 1 ≤ (s1 : ℤ) := by exact_mod_cast hlt
    have hm := mul_le_mul_of_nonneg_right hc (le_of_lt encoderK_pos)
    have hr : ((s2 : ℤ) + 1) * encoderK = (s2 : ℤ) * encoderK + encoderK := by ring
    omega
  unfold encode_score_with_tiebreaker
  rw [hfs1, hfs2, hft]
  omega

/-- C8 (amended): the encoder is strictly monotone in the score over
    the full documented score range — for scores s2 < s1 ≤ 2³¹ and any
    fixed timestamp in [0, 2⁵³) ms, encode(s1, t) > encode(s2, t)
    (score dominates every rounding error). It is strictly monotone in
    the timestamp only on the float64-exact range score·K < 2⁵³: there
    t1 < t2 implies encode(s, t1) > encode(s, t2), while at the
    documented maximum score 2³¹ rounding collapses sub-ulp timestamp
    differences (see the counterexample). -/
theorem encode_strict_monotone_documented_range (s1 s2 s : ℕ) (t t1 t2 : ℤ)
    (hs1 : s1 ≤ 2 ^ 31)
    (ht0 : 0 ≤ t) (htl : t < 2 ^ 53)
    (hs : (s : ℤ) * encoderK < 2 ^ 53)
    (ht10 : 0 ≤ t1) (ht1l : t1 < 2 ^ 53) (ht20 : 0 ≤ t2) (ht2l : t2 < 2 ^ 53) :
    (s2 < s1 → encode_score_with_tiebreaker s2 t < encode_score_with_tiebreaker s1 t) ∧
    (t1 < t2 → encode_score_with_tiebreaker s t2 < encode_score_with_tiebreaker s t1) := by
  constructor
  · intro hlt
    exact encode_score_strict_mono s1 s2 t hs1 hlt ht0 htl
  · intro hlt
    rw [encode_eq_exact s t2 hs ht20 ht2l, encode_eq_exact s t1 hs ht10 ht1l]
    omega

theorem encode_strict_monotone_documented_range_witness :
    (encode_score_with_tiebreaker (2 ^ 31 - 1) (10 ^ 12) <
      encode_score_with_tiebreaker (2 ^ 31) (10 ^ 12)) ∧
    (encode_score_with_tiebreaker 7 9 < encode_score_with_tiebreaker 7 2) := by
  have h := encode_strict_monotone_documented_range (2 ^ 31) (2 ^ 31 - 1) 7 (10 ^ 12) 2 9
    (by norm_num) (by norm_num) (by norm_num) (by norm_num [encoderK])
    (by norm_num) (by norm_num) (by norm_num) (by norm_num)
  exact ⟨h.1 (by norm_num), h.2 (by norm_num)⟩

theorem signup_ok (db : Database) (pid : String) (now : ℤ)
    (h : pid ∉ db.players) :
    signup db pid now = .ok { db with
      players := pid :: db.players,
      leaderboard := upsert pid ⟨0, now⟩ db.leaderboard } := by
  simp [signup, h]

theorem submit_score_ok (db : Database) (pid : String) (s : ℕ) (now : ℤ)
    (hmem : pid ∈ db.players) :
    submit_score db pid s now = .ok { db with
      history := db.history ++ [⟨pid, s, now⟩],
      leaderboard := upsert pid (submitRow db pid s now) db.leaderboard,
      zset := update_leaderboard db.zset pid (submitRow db pid s now).best_score
        (submitRow db pid s now).last_updated } := by
  simp [submit_score, hmem]

theorem submit_score_notMem (db : Database) (pid : String) (s : ℕ) (now : ℤ)
    (h : pid ∉ db.players) :
    submit_score db pid s now = .error .notFound := by
  simp [submit_score, h]

theorem applyOp_submit_mem (db : Database) (pid : String) (s : ℕ) (now : ℤ)
    (hmem : pid ∈ db.players) :
    applyOp db (.submitOp pid s now) = { db with
      history := db.history ++ [⟨pid, s, now⟩],
      leaderboard := upsert pid (submitRow db pid s now) db.leaderboard,
      zset := update_leaderboard db.zset pid (submitRow db pid s now).best_score
        (submitRow db pid s now).last_updated } := by
  simp [applyOp, submit_score_ok db pid s now hmem]

theorem applyOp_submit_notMem (db : Database) (pid : String) (s : ℕ) (now : ℤ)
    (h : pid ∉ db.players) :
    applyOp db (.submitOp pid s now) = db := by
  simp [applyOp, submit_score_notMem db pid s now h]

theorem applyOp_signup_mem (db : Database) (pid : String) (now : ℤ)
    (h : pid ∈ db.players) :
    applyOp db (.signupOp pid now) = db := by
  simp [applyOp, signup, h]

theorem applyOp_signup_new (db : Database) (pid : String) (now : ℤ)
    (h : pid ∉ db.players) :
    applyOp db (.signupOp pid now) = { db with
      players := pid :: db.players,
      leaderboard := upsert pid ⟨0, now⟩ db.leaderboard } := by
  simp [applyOp, signup, h]

/-- In every reachable state, a player that has a leaderboard row also
    has a `playerinfo` row (signup writes both; submit touches the
    leaderboard only for existing players). -/
theorem reachable_row_implies_player (db : Database) (hdb : Reachable db) :
    ∀ p r, alookup p db.leaderboard = some r → p ∈ db.players := by
  induction hdb with
  | empty => intro p r h; simp [Database.empty, alookup] at h
  | step db op hdb ih =>
    intro p r h
    cases op with
    | signupOp pid now =>
      by_cases hmem : pid ∈ db.players
      · rw [applyOp_signup_mem db pid now hmem] at h ⊢
        exact ih p r h
      · rw [applyOp_signup_new db pid now hmem] at h ⊢
        by_cases hp : p = pid
        · subst hp; exact List.mem_cons_self p db.players
        · rw [alookup_upsert_ne _ _ hp] at h
          exact List.mem_cons_of_mem _ (ih p r h)
    | submitOp pid s now =>
      by_cases hmem : pid ∈ db.players
      · rw [applyOp_submit_mem db pid s now hmem] at h ⊢
        by_cases hp : p = pid
        · subst hp; exact hmem
        · rw [alookup_upsert_ne _ _ hp] at h
          exact ih p r h
      · rw [applyOp_submit_notMem db pid s now hmem] at h ⊢
        exact ih p r h

/-- When the player's row is present, `submitRow` is exactly the
    strict-greater step. -/
theorem submitRow_eq_stepBest (db : Database) (pid : String) (s : ℕ) (now : ℤ)
    (r : LeaderboardRow) (hr : alookup pid db.leaderboard = some r) :
    submitRow db pid s now = stepBest r (s, now) := by
  simp [submitRow, stepBest, hr]

/-- C7: in every reachable state, under every endpoint call, a present
    `BestScoreRecord` stays present and either is completely unchanged
    or moves to a strictly larger `best_score` with `last_updated`
    stamped by that call; consequently `best_score` never decreases and
    `last_updated` never regresses as long as call timestamps do not
    run backwards. (The absent-to-present transitions are `signup` and
    a first `submit_score`, both covered by the other claims.) -/
theorem bestScoreRecord_transitions (db : Database) (hdb : Reachable db) (op : Op)
    (p : String) (r : LeaderboardRow) (hr : alookup p db.leaderboard = some r) :
    ∃ r', alookup p (applyOp db op).leaderboard = some r' ∧
      (r' = r ∨ (r.best_score < r'.best_score ∧ r'.last_updated = opNow op)) ∧
      (r.last_updated ≤ opNow op → r.last_updated ≤ r'.last_updated) := by
  cases op with
  | signupOp pid now =>
    by_cases hmem : pid ∈ db.players
    · rw [applyOp_signup_mem db pid now hmem]
      exact ⟨r, hr, Or.inl rfl, fun _ => le_refl _⟩
    · rw [applyOp_signup_new db pid now hmem]
      have hp : p ≠ pid := by
        intro he
        exact hmem (he ▸ reachable_row_implies_player db hdb p r hr)
      rw [alookup_upsert_ne _ _ hp]
      exact ⟨r, hr, Or.inl rfl, fun _ => le_refl _⟩
  | submitOp pid s now =>
    by_cases hmem : pid ∈ db.players
    · rw [applyOp_submit_mem db pid s now hmem]
      by_cases hp : p = pid
      · subst hp
        rw [alookup_upsert_self, submitRow_eq_stepBest db p s now r hr]
        unfold stepBest
        by_cases hlt : r.best_score < s
        · rw [if_pos hlt]
          exact ⟨⟨s, now⟩, rfl, Or.inr ⟨hlt, rfl⟩, fun hle => hle⟩
        · rw [if_neg hlt]
          exact ⟨r, rfl, Or.inl rfl, fun _ => le_refl _⟩
      · rw [alookup_upsert_ne _ _ hp]
        exact ⟨r, hr, Or.inl rfl, fun _ => le_refl _⟩
    · rw [applyOp_submit_notMem db pid s now hmem]
      exact ⟨r, hr, Or.inl rfl, fun _ => le_refl _⟩

theorem bestScoreRecord_transitions_witness :
    ∃ r', alookup "p"
        (applyOp (applyOp Database.empty (.signupOp "p" 0)) (.submitOp "p" 5 1)).leaderboard =
        some r' ∧
      (r' = (⟨0, 0⟩ : LeaderboardRow) ∨
        ((⟨0, 0⟩ : LeaderboardRow).best_score < r'.best_score ∧
          r'.last_updated = opNow (.submitOp "p" 5 1))) ∧
      ((⟨0, 0⟩ : LeaderboardRow).last_updated ≤ opNow (.submitOp "p" 5 1) →
        (⟨0, 0⟩ : LeaderboardRow).last_updated ≤ r'.last_updated) :=
  bestScoreRecord_transitions (applyOp Database.empty (.signupOp "p" 0))
    (Reachable.step Database.empty (.signupOp "p" 0) Reachable.empty)
    (.submitOp "p" 5 1) "p" ⟨0, 0⟩ (by decide)

/-- C5 counterexample: immediately after `signup` — with no score
    submission at all — the player's `BestScoreRecord` already exists,
    holding `best_score = 0` and the signup timestamp, because `signup`
    initializes the leaderboard row itself. The claim "no record exists
    before the first submission, and only submit_score creates it" is
    therefore false on the code. -/
theorem signup_creates_record_counterexample :
    (applyOp Database.empty (.signupOp "p" 7)).history = [] ∧
    alookup "p" (applyOp Database.empty (.signupOp "p" 7)).leaderboard = some ⟨0, 7⟩ := by
  constructor
  · decide
  · decide

/-- C5 (amended): the `BestScoreRecord` is created eagerly by `signup`
    with `best_score = 0` and `last_updated = now` (no history row is
    written); `submit_score` merely creates it defensively, as
    `⟨score, now⟩`, should a player row exist without it. -/
theorem record_created_eagerly (db : Database) (pid : String) (now : ℤ) (s : ℕ) :
    (pid ∉ db.players →
      ∃ db', signup db pid now = .ok db' ∧
        alookup pid db'.leaderboard = some ⟨0, now⟩ ∧ db'.history = db.history) ∧
    (pid ∈ db.players → alookup pid db.leaderboard = none →
      ∃ db', submit_score db pid s now = .ok db' ∧
        alookup pid db'.leaderboard = some ⟨s, now⟩) := by
  constructor
  · intro h
    exact ⟨_, signup_ok db pid now h,
      alookup_upsert_self pid ⟨0, now⟩ db.leaderboard, rfl⟩
  · intro hmem hnone
    refine ⟨_, submit_score_ok db pid s now hmem, ?_⟩
    have hrow : submitRow db pid s now = ⟨s, now⟩ := by simp [submitRow, hnone]
    rw [hrow]
    exact alookup_upsert_self pid ⟨s, now⟩ db.leaderboard

theorem record_created_eagerly_witness :
    (∃ db', signup Database.empty "p" 3 = .ok db' ∧
      alookup "p" db'.leaderboard = some ⟨0, 3⟩ ∧ db'.history = Database.empty.history) ∧
    (∃ db', submit_score ⟨["q"], [], [], []⟩ "q" 5 4 = .ok db' ∧
      alookup "q" db'.leaderboard = some ⟨5, 4⟩) :=
  ⟨(record_created_eagerly Database.empty "p" 3 5).1 (by decide),
   (record_created_eagerly ⟨["q"], [], [], []⟩ "q" 4 5).2 (by decide) (by decide)⟩

/-- C6: submitting a score for a player id with no `playerinfo` row
    fails with 404 Not Found, and the state — score history, best-score
    rows and the Redis Rank Index alike — is left completely
    unchanged (the handler raises before any write). -/
theorem submit_unknown_player_notFound (db : Database) (pid : String) (s : ℕ) (now : ℤ)
    (h : pid ∉ db.players) :
    submit_score db pid s now = .error .notFound ∧
    applyOp db (.submitOp pid s now) = db :=
  ⟨submit_score_notMem db pid s now h, applyOp_submit_notMem db pid s now h⟩

theorem submit_unknown_player_notFound_witness :
    submit_score Database.empty "ghost" 5 0 = .error .notFound ∧
    applyOp Database.empty (.submitOp "ghost" 5 0) = Database.empty :=
  submit_unknown_player_notFound Database.empty "ghost" 5 0 (by decide)

/-- C10: every committed `submit_score` call stamps one single `now`:
    the appended `score_history` row carries `created_at = now`, and
    whenever the call writes `last_updated` (record creation or a new
    best) the written value is that same `now` — so any `last_updated`
    written by a call equals the `created_at` of the event it appended. -/
theorem submit_single_timestamp (db : Database) (pid : String) (s : ℕ) (now : ℤ)
    (db' : Database) (h : submit_score db pid s now = .ok db') :
    db'.history = db.history ++ [⟨pid, s, now⟩] ∧
    (∀ r', alookup pid db'.leaderboard = some r' →
      alookup pid db.leaderboard = some r' ∨ r'.last_updated = now) := by
  by_cases hmem : pid ∈ db.players
  · rw [submit_score_ok db pid s now hmem] at h
    injection h with h
    subst h
    refine ⟨rfl, ?_⟩
    intro r' hr'
    rw [alookup_upsert_self] at hr'
    injection hr' with hr'
    subst hr'
    cases halo : alookup pid db.leaderboard with
    | none => right; simp [submitRow, halo]
    | some r =>
      rw [submitRow_eq_stepBest db pid s now r halo]
      unfold stepBest
      by_cases hlt : r.best_score < s
      · rw [if_pos hlt]; right; rfl
      · rw [if_neg hlt]; left; rfl
  · rw [submit_score_notMem db pid s now hmem] at h
    exact absurd h (by simp)

theorem submit_single_timestamp_witness :
    dbRes.history = dbStart.history ++ [⟨"q", 5, 3⟩] ∧
    (∀ r', alookup "q" dbRes.leaderboard = some r' →
      alookup "q" dbStart.leaderboard = some r' ∨ r'.last_updated = 3) :=
  submit_single_timestamp dbStart "q" 5 3 dbRes (by rfl)

theorem maxScore_cons (p : ℕ × ℤ) (l : List (ℕ × ℤ)) :
    maxScore (p :: l) = max p.1 (maxScore l) := rfl

theorem processSubs_cons (r : LeaderboardRow) (p : ℕ × ℤ) (l : List (ℕ × ℤ)) :
    processSubs r (p :: l) = processSubs (stepBest r p) l := rfl

/-- Submissions never exceeding the stored best leave the row untouched
    (the strict-greater comparison never fires). -/
theorem processSubs_fixed : ∀ (l : List (ℕ × ℤ)) (r : LeaderboardRow),
    maxScore l ≤ r.best_score → processSubs r l = r := by
  intro l
  induction l with
  | nil => intro r _; rfl
  | cons p tl ih =>
    intro r h
    rw [maxScore_cons] at h
    have h1 : p.1 ≤ r.best_score := le_trans (le_max_left _ _) h
    have h2 : maxScore tl ≤ r.best_score := le_trans (le_max_right _ _) h
    have hs : stepBest r p = r := by
      unfold stepBest
      rw [if_neg (by omega)]
    rw [processSubs_cons, hs]
    exact ih r h2

/-- When the sequence beats the stored best, the row ends at the
    maximum submitted score stamped with the timestamp of the first
    submission that achieved it. -/
theorem processSubs_first : ∀ (l : List (ℕ × ℤ)) (r : LeaderboardRow),
    r.best_score < maxScore l →
    ∃ t, firstAchievedAt l (maxScore l) = some t ∧
      processSubs r l = ⟨maxScore l, t⟩ := by
  intro l
  induction l with
  | nil =>
    intro r h
    simp [maxScore] at h
  | cons p tl ih =>
    intro r h
    rcases le_or_lt (maxScore tl) p.1 with hle | hlt
    · have hm : maxScore (p :: tl) = p.1 := by
        rw [maxScore_cons]; exact max_eq_left hle
      rw [hm] at h ⊢
      refine ⟨p.2, ?_, ?_⟩
      · unfold firstAchievedAt
        rw [List.find?_cons_of_pos _ (by simp)]
        rfl
      · rw [processSubs_cons]
        have hstep : stepBest r p = ⟨p.1, p.2⟩ := by
          unfold stepBest; rw [if_pos h]
        rw [hstep]
        exact processSubs_fixed tl ⟨p.1, p.2⟩ hle
    · have hm : maxScore (p :: tl) = maxScore tl := by
        rw [maxScore_cons]; exact max_eq_right (le_of_lt hlt)
      rw [hm] at h ⊢
      have hbest : (stepBest r p).best_score < maxScore tl := by
        unfold stepBest
        split
        · exact hlt
        · exact h
      obtain ⟨t, hfind, hproc⟩ := ih (stepBest r p) hbest
      refine ⟨t, ?_, ?_⟩
      · unfold firstAchievedAt at hfind ⊢
        rw [List.find?_cons_of_neg _ (by simp; omega)]
        exact hfind
      · rw [processSubs_cons]
        exact hproc

theorem submitMany_cons (db : Database) (pid : String) (p : ℕ × ℤ) (l : List (ℕ × ℤ)) :
    submitMany db pid (p :: l) = submitMany (applyOp db (.submitOp pid p.1 p.2)) pid l := rfl

/-- A sequence of `submit_score` calls acts on the player's leaderboard
    row exactly as the `stepBest` fold. -/
theorem submitMany_lookup (pid : String) : ∀ (subs : List (ℕ × ℤ)) (db : Database)
    (r : LeaderboardRow), pid ∈ db.players → alookup pid db.leaderboard = some r →
    alookup pid (submitMany db pid subs).leaderboard = some (processSubs r subs) := by
  intro subs
  induction subs with
  | nil => intro db r _ hr; exact hr
  | cons p tl ih =>
    intro db r hm hr
    rw [submitMany_cons, processSubs_cons]
    apply ih
    · rw [applyOp_submit_mem db pid p.1 p.2 hm]; exact hm
    · rw [applyOp_submit_mem db pid p.1 p.2 hm,
        submitRow_eq_stepBest db pid p.1 p.2 r hr, alookup_upsert_self]

/-- C1 (amended): starting from the signup state (best_score 0), if the
    maximum submitted score is strictly positive then after the whole
    sequence `best_score` equals that maximum and `last_updated` equals
    the timestamp of the first submission that achieved it. (When every
    submitted score is 0 the claim fails — see the counterexample —
    because `signup` already initialized the row to best_score 0 with
    the signup timestamp and a tied score never updates it.) -/
theorem submitMany_best_and_first_achiever (db : Database) (pid : String) (t0 : ℤ)
    (subs : List (ℕ × ℤ)) (hm : pid ∈ db.players)
    (hr : alookup pid db.leaderboard = some ⟨0, t0⟩) (hpos : 0 < maxScore subs) :
    ∃ t, firstAchievedAt subs (maxScore subs) = some t ∧
      alookup pid (submitMany db pid subs).leaderboard = some ⟨maxScore subs, t⟩ := by
  obtain ⟨t, hf, hp⟩ := processSubs_first subs ⟨0, t0⟩ hpos
  refine ⟨t, hf, ?_⟩
  rw [submitMany_lookup pid subs db ⟨0, t0⟩ hm hr, hp]

theorem submitMany_best_and_first_achiever_witness :
    ∃ t, firstAchievedAt [((3 : ℕ), (5 : ℤ))] (maxScore [((3 : ℕ), (5 : ℤ))]) = some t ∧
      alookup "w" (submitMany (applyOp Database.empty (.signupOp "w" 0)) "w"
        [((3 : ℕ), (5 : ℤ))]).leaderboard = some ⟨maxScore [((3 : ℕ), (5 : ℤ))], t⟩ :=
  submitMany_best_and_first_achiever (applyOp Database.empty (.signupOp "w" 0)) "w" 0
    [((3 : ℕ), (5 : ℤ))] (by decide) (by decide) (by decide)

/-- C1 counterexample: a player signs up at time 0 and then submits a
    single score 0 at time 5. The maximum submitted score is 0 and the
    first (only) submission achieving it happened at time 5, but the
    stored row is `⟨0, 0⟩`: `last_updated` is the signup timestamp, not
    the timestamp 5 of the first submission that achieved the maximum,
    so the claim as stated is false on the code. -/
theorem lastUpdated_zero_max_counterexample :
    maxScore [((0 : ℕ), (5 : ℤ))] = 0 ∧
    firstAchievedAt [((0 : ℕ), (5 : ℤ))] 0 = some 5 ∧
    alookup "p" (submitMany (applyOp Database.empty (.signupOp "p" 0)) "p"
      [((0 : ℕ), (5 : ℤ))]).leaderboard = some ⟨0, 0⟩ ∧
    (⟨0, 0⟩ : LeaderboardRow) ≠ ⟨0, 5⟩ := by
  refine ⟨rfl, rfl, by decide, by decide⟩

/-- C9: `get_rank_from_redis` returns rank 1 for a player whose encoded
    value is strictly above every other member's, and returns `none`
    (absent, not an error) for every player with no Rank Index entry. -/
theorem get_rank_top_and_absent (zset : List (String × ℤ)) (pid : String) :
    (∀ v, alookup pid zset = some v →
      (∀ q ∈ zset, q.1 = pid → q.2 = v) →
      (∀ q ∈ zset, q.1 ≠ pid → q.2 < v) →
      get_rank_from_redis zset pid = some 1) ∧
    (alookup pid zset = none → get_rank_from_redis zset pid = none) := by
  constructor
  · intro v hv hcons hlt
    have hfilter : zset.filter (fun q =>
        decide (v < q.2) || (decide (q.2 = v) && decide (pid < q.1))) = [] := by
      rw [List.filter_eq_nil_iff]
      intro q hq
      simp only [Bool.or_eq_true, Bool.and_eq_true, decide_eq_true_eq, not_or, not_and]
      by_cases hqp : q.1 = pid
      · have he : q.2 = v := hcons q hq hqp
        subst he
        exact ⟨lt_irrefl _, fun _ => by rw [hqp]; exact lt_irrefl pid⟩
      · have h2 : q.2 < v := hlt q hq hqp
        exact ⟨lt_asymm h2, fun he => absurd he (ne_of_lt h2)⟩
    unfold get_rank_from_redis zrevrank
    rw [hv]
    simp only [Option.map_some']
    rw [hfilter]
    rfl
  · intro h
    unfold get_rank_from_redis zrevrank
    rw [h]
    rfl

theorem get_rank_top_and_absent_witness :
    get_rank_from_redis demoZset "a" = some 1 ∧
    get_rank_from_redis demoZset "c" = none :=
  ⟨(get_rank_top_and_absent demoZset "a").1 10 (by decide) (by decide) (by decide),
   (get_rank_top_and_absent demoZset "c").2 (by decide)⟩

/-- C4 (amended): an index entry with no matching Ledger join row is
    silently omitted from the returned list, but it still occupies its
    rank slot — each returned entry's rank is `idx + 1` for its
    position `idx` in the Redis slice (Python `enumerate`), so the
    returned ranks are not renumbered contiguously and may skip
    numbers after a skipped entry. -/
theorem get_top_items_ranks_from_index_position (db : Database) :
    ∀ (i : ℕ) (entries : List (String × ℤ)),
    get_top_items db i entries =
      (indexedFrom i entries).filterMap (fun q =>
        (infoFor db q.2.1).map (fun r =>
          ⟨q.1 + 1, q.2.1, r.best_score, r.last_updated⟩)) := by
  intro i entries
  induction entries generalizing i with
  | nil => rfl
  | cons e tl ih =>
    obtain ⟨pid, sc⟩ := e
    cases hinfo : infoFor db pid with
    | none => simp [get_top_items, indexedFrom, List.filterMap_cons, hinfo, ih]
    | some r => simp [get_top_items, indexedFrom, List.filterMap_cons, hinfo, ih]

/-- C4 counterexample: in `dbDrift` the Rank Index holds "g" (top,
    encoded 10) with no Ledger row and "b" (encoded 5) with one. The
    returned list contains only "b", but with rank 2 — the skipped
    entry still occupied rank slot 1, so the ranks of the entries
    actually returned are not renumbered contiguously starting at 1. -/
theorem get_top_rank_gap_counterexample :
    (get_top_leaderboard 10 dbDrift).map (fun e => e.rank) = [2] ∧ (2 : ℕ) ≠ 1 := by
  exact ⟨by decide, by decide⟩
